import Mathlib

/-!
Verification of the windowed/streaming metric engine, the CCA loss family and
the retrieval evaluation of the document-embedding research harness.

Numeric tensors are embedded with exact rational entries (`ℚ`); square roots,
where the source takes them, map the rationals into `ℝ`.  Buffers of rows are
embedded as lists of vectors (`Fin d → ℚ`), a tensor of shape `(n, d)` being
the list of its `n` rows.  External collaborators (the faiss index, the
sklearn CCA fit, the symmetric eigensolver, the configured inner loss
modules) enter as function parameters, exactly at the call sites where the
source calls out to them.
-/

open scoped Matrix

namespace ThesisRepo

/-- Python's negative slice `xs[-w:]`: for `w > 0` the last `w` elements of a
list (the whole list when it is shorter than `w`); for `w = 0` the slice
`xs[-0:]` is `xs[0:]`, the WHOLE list, not the empty one. -/
def lastWindow (w : ℕ) (l : List α) : List α :=
  if w = 0 then l else l.drop (l.length - w)

/-- `WindowedSingleValue.update` (utils/metrics.py lines 108-118): concatenate
the incoming values onto the buffer, then truncate to the most recent
`max_window_size` rows when the capacity is exceeded. -/
def svUpdate (w : ℕ) (values newVal : List ℚ) : List ℚ :=
  let cat := values ++ newVal
  if w < cat.length then lastWindow w cat else cat

/-- `WindowedSingleValue.merge_state` (utils/metrics.py lines 120-130):
concatenate self's buffer with the other metrics' buffers in iteration order,
then truncate exactly as `update` does. -/
def svMergeState (w : ℕ) (self : List ℚ) (others : List (List ℚ)) : List ℚ :=
  let cat := self ++ others.flatten
  if w < cat.length then lastWindow w cat else cat

theorem lastWindow_nil (w : ℕ) : lastWindow w ([] : List α) = [] := by
  simp [lastWindow]

theorem lastWindow_length_le (w : ℕ) (l : List α) (hw : 0 < w) :
    (lastWindow w l).length ≤ w := by
  unfold lastWindow
  rw [if_neg (by omega : ¬ w = 0)]
  simp only [List.length_drop]
  omega

theorem lastWindow_length_eq (w : ℕ) {a : List α} {b : List β}
    (h : a.length = b.length) :
    (lastWindow w a).length = (lastWindow w b).length := by
  by_cases hw : w = 0
  · simp [lastWindow, hw, h]
  · simp [lastWindow, hw, h]

theorem lastWindow_of_le (w : ℕ) (l : List α) (h : l.length ≤ w) : lastWindow w l = l := by
  unfold lastWindow
  split
  · rfl
  · simp [Nat.sub_eq_zero_of_le h]

theorem svUpdate_eq (w : ℕ) (values newVal : List ℚ) :
    svUpdate w values newVal = lastWindow w (values ++ newVal) := by
  simp only [svUpdate]
  split
  · rfl
  · next h => exact (lastWindow_of_le w _ (by omega)).symm

theorem lastWindow_append (w : ℕ) (a b : List α) :
    lastWindow w (lastWindow w a ++ b) = lastWindow w (a ++ b) := by
  by_cases hw : w = 0
  · simp [lastWindow, hw]
  · simp only [lastWindow, if_neg hw]
    rw [show a.drop (a.length - w) ++ b = (a ++ b).drop (a.length - w) from
      (List.drop_append_of_le_length (by omega)).symm]
    rw [List.drop_drop]
    congr 1
    simp only [List.length_drop, List.length_append]
    omega

theorem svFold_from (w : ℕ) (batches : List (List ℚ)) :
    ∀ a : List ℚ, List.foldl (svUpdate w) (lastWindow w a) batches
      = lastWindow w (a ++ batches.flatten) := by
  induction batches with
  | nil => intro a; simp
  | cons b bs ih =>
    intro a
    simp only [List.foldl_cons, List.flatten_cons]
    rw [svUpdate_eq, lastWindow_append, ← List.append_assoc]
    exact ih (a ++ b)

/-- The buffers of `WindowedCCAMetric` (utils/metrics.py lines 275-302): the two
row-aligned view windows.  A freshly constructed (or reset) metric holds the
empty 1-dimensional tensor in each slot, embedded as the empty list. -/
structure CCAState (d1 d2 : ℕ) where
  views1 : List (Fin d1 → ℚ)
  views2 : List (Fin d2 → ℚ)
deriving DecidableEq

/-- `WindowedCCAMetric.update` (utils/metrics.py lines 293-302): concatenate the
incoming views onto both buffers; when `views1` exceeds `max_window_size`,
slice both buffers down to their last `max_window_size` rows. -/
def ccaUpdate (w : ℕ) (st : CCAState d1 d2)
    (v1 : List (Fin d1 → ℚ)) (v2 : List (Fin d2 → ℚ)) : CCAState d1 d2 :=
  let n1 := st.views1 ++ v1
  let n2 := st.views2 ++ v2
  if w < n1.length then ⟨lastWindow w n1, lastWindow w n2⟩ else ⟨n1, n2⟩

/-- `WindowedCCAMetric.merge_state` (utils/metrics.py lines 332-342):
concatenate self's buffers with the other metrics' buffers, in iteration
order.  Note the source applies no truncation here. -/
def ccaMergeState (st : CCAState d1 d2) (others : List (CCAState d1 d2)) :
    CCAState d1 d2 :=
  ⟨st.views1 ++ (others.map CCAState.views1).flatten,
   st.views2 ++ (others.map CCAState.views2).flatten⟩

theorem ccaUpdate_eq (w : ℕ) (st : CCAState d1 d2)
    (v1 : List (Fin d1 → ℚ)) (v2 : List (Fin d2 → ℚ))
    (hst : st.views1.length = st.views2.length) (hv : v1.length = v2.length) :
    ccaUpdate w st v1 v2
      = ⟨lastWindow w (st.views1 ++ v1), lastWindow w (st.views2 ++ v2)⟩ := by
  simp only [ccaUpdate]
  split
  · rfl
  · next h =>
    have h2 : (st.views2 ++ v2).length ≤ w := by
      simp only [List.length_append] at h ⊢; omega
    rw [lastWindow_of_le w _ (by omega), lastWindow_of_le w _ h2]

theorem ccaFold_from (w : ℕ) (pairs : List (List (Fin d1 → ℚ) × List (Fin d2 → ℚ)))
    (hal : ∀ p ∈ pairs, p.1.length = p.2.length) :
    ∀ a : List (Fin d1 → ℚ), ∀ b : List (Fin d2 → ℚ), a.length = b.length →
      List.foldl (fun st p => ccaUpdate w st p.1 p.2) ⟨lastWindow w a, lastWindow w b⟩ pairs
        = ⟨lastWindow w (a ++ (pairs.map Prod.fst).flatten),
           lastWindow w (b ++ (pairs.map Prod.snd).flatten)⟩ := by
  induction pairs with
  | nil => intro a b _; simp
  | cons p ps ih =>
    intro a b hab
    simp only [List.foldl_cons, List.map_cons, List.flatten_cons]
    rw [ccaUpdate_eq w _ _ _ (lastWindow_length_eq w hab) (hal p (by simp))]
    rw [lastWindow_append, lastWindow_append, ← List.append_assoc, ← List.append_assoc]
    exact ih (fun q hq => hal q (by simp [hq])) (a ++ p.1) (b ++ p.2)
      (by simp [hab, hal p (by simp)])

/-- Outcome of a metric's `compute()` call: a numeric value, a NaN report, or
a raised exception. -/
inductive MetricResult where
  | value (x : ℚ)
  | nan
  | raised
deriving DecidableEq

/-- `WindowedMean.compute` (utils/metrics.py lines 137-140): `torch.mean` of the
buffer, which is NaN exactly when the buffer is empty. -/
def windowedMeanCompute (values : List ℚ) : MetricResult :=
  if values.length = 0 then .nan else .value (values.sum / values.length)

/-- `WindowedMax.compute` (utils/metrics.py lines 143-146): `torch.max` of the
buffer; on an empty tensor `torch.max` raises a RuntimeError. -/
def windowedMaxCompute (values : List ℚ) : MetricResult :=
  match values with
  | [] => .raised
  | x :: xs => .value (xs.foldl max x)

/-- `WindowedCCAMetric.compute` (utils/metrics.py lines 304-330).  On the fresh
(or reset) state each buffer is the 1-dimensional empty tensor, so
`self.views1.size(1)` raises an IndexError; otherwise the sample-count bound
returns NaN when `n_components > min(view1_dim, view2_dim, samples)`, and the
sklearn CCA fit (an external collaborator, here the parameter `fit`) either
yields the correlation or raises a LinAlgError that is caught and turned into
NaN. -/
def ccaCompute (nComponents : ℕ)
    (fit : List (Fin d1 → ℚ) → List (Fin d2 → ℚ) → Except Unit ℚ)
    (st : CCAState d1 d2) : MetricResult :=
  match st.views1 with
  | [] => .raised
  | _ :: _ =>
    if min (min d1 d2) st.views1.length < nComponents then .nan
    else
      match fit st.views1 st.views2 with
      | .ok c => .value c
      | .error _ => .nan

/-- A one-row view batch over a single feature, used as concrete input. -/
def onePair : List (Fin 1 → ℚ) × List (Fin 1 → ℚ) := ([fun _ => 0], [fun _ => 0])

/-- C1 (amended): for every windowed metric (`WindowedSingleValue` and
`WindowedCCAMetric`) with `max_window_size ≥ 1`, after any sequence of
`update` calls the internal buffer has length at most `max_window_size` and
its content equals the most recently inserted `max_window_size` rows in
insertion order (FIFO eviction of the oldest rows).  At `max_window_size = 0`
Python's `values[-0:]` keeps the whole buffer, so the length bound fails
there.  For the two-buffer CCA metric the update calls pass row-aligned
views, the shape contract of the metric. -/
theorem claim_C1_windowed_buffer_fifo (w : ℕ) (hw : 0 < w)
    (batches : List (List ℚ))
    (pairs : List (List (Fin d1 → ℚ) × List (Fin d2 → ℚ)))
    (hal : ∀ p ∈ pairs, p.1.length = p.2.length) :
    (List.foldl (svUpdate w) [] batches = lastWindow w batches.flatten
      ∧ (List.foldl (svUpdate w) [] batches).length ≤ w)
    ∧ (List.foldl (fun st p => ccaUpdate w st p.1 p.2) (⟨[], []⟩ : CCAState d1 d2) pairs
        = ⟨lastWindow w (pairs.map Prod.fst).flatten,
           lastWindow w (pairs.map Prod.snd).flatten⟩
      ∧ (List.foldl (fun st p => ccaUpdate w st p.1 p.2) (⟨[], []⟩ : CCAState d1 d2)
          pairs).views1.length ≤ w
      ∧ (List.foldl (fun st p => ccaUpdate w st p.1 p.2) (⟨[], []⟩ : CCAState d1 d2)
          pairs).views2.length ≤ w) := by
  have hsv : List.foldl (svUpdate w) [] batches = lastWindow w batches.flatten := by
    have := svFold_from w batches []
    simpa [lastWindow_nil] using this
  have hcca : List.foldl (fun st p => ccaUpdate w st p.1 p.2) (⟨[], []⟩ : CCAState d1 d2) pairs
      = ⟨lastWindow w (pairs.map Prod.fst).flatten, lastWindow w (pairs.map Prod.snd).flatten⟩ := by
    have := ccaFold_from w pairs hal [] [] rfl
    simpa [lastWindow_nil] using this
  refine ⟨⟨hsv, ?_⟩, hcca, ?_, ?_⟩
  · rw [hsv]; exact lastWindow_length_le w _ hw
  · rw [hcca]; exact lastWindow_length_le w _ hw
  · rw [hcca]; exact lastWindow_length_le w _ hw

/-- Counterexample for C1 as stated: with `max_window_size = 0`, a single
update with one value leaves a buffer of length 1 — Python's `values[-0:]`
keeps the whole buffer — so the buffer length exceeds `max_window_size`. -/
theorem counterexample_C1_zero_window_not_bounded :
    ¬ ((List.foldl (svUpdate 0) [] [[1]]).length ≤ 0) := by
  decide

/-- Witness for C1 at a concrete input: window size 2, scalar batches
`[1]`, `[2, 3]`, and one row-aligned CCA batch. -/
theorem claim_C1_witness :
    (0 < 2)
    ∧ (∀ p ∈ [onePair], p.1.length = p.2.length)
    ∧ ((List.foldl (svUpdate 2) [] [[1], [2, 3]] = lastWindow 2 [[1], [2, 3]].flatten
      ∧ (List.foldl (svUpdate 2) [] [[1], [2, 3]]).length ≤ 2)
    ∧ (List.foldl (fun st p => ccaUpdate 2 st p.1 p.2) (⟨[], []⟩ : CCAState 1 1) [onePair]
        = ⟨lastWindow 2 ([onePair].map Prod.fst).flatten,
           lastWindow 2 ([onePair].map Prod.snd).flatten⟩
      ∧ (List.foldl (fun st p => ccaUpdate 2 st p.1 p.2) (⟨[], []⟩ : CCAState 1 1)
          [onePair]).views1.length ≤ 2
      ∧ (List.foldl (fun st p => ccaUpdate 2 st p.1 p.2) (⟨[], []⟩ : CCAState 1 1)
          [onePair]).views2.length ≤ 2)) :=
  ⟨by decide, by decide,
    claim_C1_windowed_buffer_fifo 2 (by decide) [[1], [2, 3]] [onePair] (by decide)⟩

/-- C2 (amended): `WindowedSingleValue.merge_state` concatenates the buffers
(self first, then the others in iteration order) and re-applies the truncation
rule — the `values[-max_window_size:]` slice — so for `max_window_size ≥ 1`
its buffer holds the last `max_window_size` rows of the concatenation and
never exceeds `max_window_size` (at `max_window_size = 0` the slice keeps the
whole concatenation); `WindowedCCAMetric.merge_state` concatenates the buffers
in that same order but applies no truncation, so its buffers keep the whole
concatenation whatever their length. -/
theorem claim_C2_merge_concatenation (w : ℕ) (self : List ℚ) (others : List (List ℚ))
    (st : CCAState d1 d2) (ms : List (CCAState d1 d2)) :
    (svMergeState w self others = lastWindow w (self ++ others.flatten)
      ∧ (0 < w → (svMergeState w self others).length ≤ w))
    ∧ ((ccaMergeState st ms).views1 = st.views1 ++ (ms.map CCAState.views1).flatten
      ∧ (ccaMergeState st ms).views2 = st.views2 ++ (ms.map CCAState.views2).flatten
      ∧ (ccaMergeState st ms).views1.length
          = st.views1.length + ((ms.map CCAState.views1).flatten).length) := by
  have hsv : svMergeState w self others = lastWindow w (self ++ others.flatten) := by
    simp only [svMergeState]
    split
    · rfl
    · next h => exact (lastWindow_of_le w _ (by omega)).symm
  exact ⟨⟨hsv, fun hw => by rw [hsv]; exact lastWindow_length_le w _ hw⟩,
    rfl, rfl, by simp [ccaMergeState]⟩

/-- Counterexample for C2 as stated: with `max_window_size = 1`, merging two
`WindowedCCAMetric`s that each hold one row leaves a buffer of two rows — the
merged buffer is not truncated back to the window size. -/
theorem counterexample_C2_cca_merge_not_truncated :
    ¬ ((ccaMergeState (ccaUpdate 1 (⟨[], []⟩ : CCAState 1 1) [fun _ => 0] [fun _ => 0])
        [ccaUpdate 1 (⟨[], []⟩ : CCAState 1 1) [fun _ => 0] [fun _ => 0]]).views1.length ≤ 1) := by
  decide

/-- C3 (amended): on an empty buffer (no update since construction or reset),
`WindowedMean.compute` returns NaN without raising, but `WindowedMax.compute`
raises (RuntimeError from `torch.max` on an empty tensor) and
`WindowedCCAMetric.compute` raises (IndexError from `size(1)` on the fresh
1-dimensional empty buffer). -/
theorem claim_C3_empty_buffer_compute (d1 d2 nComponents : ℕ)
    (fit : List (Fin d1 → ℚ) → List (Fin d2 → ℚ) → Except Unit ℚ) :
    windowedMeanCompute [] = .nan
    ∧ windowedMaxCompute [] = .raised
    ∧ ccaCompute nComponents fit ⟨[], []⟩ = .raised :=
  ⟨rfl, rfl, rfl⟩

/-- Counterexample for C3 as stated: `WindowedMax.compute` on the empty buffer
does not return NaN (it raises). -/
theorem counterexample_C3_max_empty_not_nan :
    windowedMaxCompute [] ≠ MetricResult.nan := by
  decide

/-- Mean of a view's observations: the view holds features as rows and
observations as columns, and `view.mean(dim=1)` averages each feature over the
`nn` observation columns (utils/torch/losses.py lines 115-116, 262-264). -/
def obsMean (v : Matrix (Fin d) (Fin nn) ℚ) : Fin d → ℚ :=
  fun i => (∑ k, v i k) / nn

/-- Column-wise centering `view - mean.unsqueeze(1)`. -/
def centerCols (v : Matrix (Fin d) (Fin nn) ℚ) (mu : Fin d → ℚ) :
    Matrix (Fin d) (Fin nn) ℚ :=
  Matrix.of fun i k => v i k - mu i

/-- `CCALoss._covariance` without regularization (utils/torch/losses.py lines
87-102): `cov = (1 / (n - 1)) * x @ y.T`, with `n` the observation count. -/
def covariance (x : Matrix (Fin m1) (Fin nn) ℚ) (y : Matrix (Fin m2) (Fin nn) ℚ) :
    Matrix (Fin m1) (Fin m2) ℚ :=
  ((nn : ℚ) - 1)⁻¹ • (x * yᵀ)

/-- `CCALoss._covariance` with `add_regularization=True`: adds
`reg_constant * eye(m)` to the covariance. -/
def covarianceReg (regC : ℚ) (x y : Matrix (Fin m) (Fin nn) ℚ) :
    Matrix (Fin m) (Fin m) ℚ :=
  covariance x y + regC • (1 : Matrix (Fin m) (Fin m) ℚ)

/-- `CCALoss._compute_covariance_matrices` (utils/torch/losses.py lines
109-122): transpose the views so observations are columns, center each by its
batch mean, and return `(Σ12, Σ11 + λI, Σ22 + λI)` — the same-view covariances
are regularized, the cross-covariance is not. -/
def exactCovarianceMatrices (regC : ℚ)
    (view1 : Matrix (Fin nn) (Fin d1) ℚ) (view2 : Matrix (Fin nn) (Fin d2) ℚ) :
    Matrix (Fin d1) (Fin d2) ℚ × Matrix (Fin d1) (Fin d1) ℚ
      × Matrix (Fin d2) (Fin d2) ℚ :=
  let v1 := view1ᵀ
  let v2 := view2ᵀ
  let v1bar := centerCols v1 (obsMean v1)
  let v2bar := centerCols v2 (obsMean v2)
  (covariance v1bar v2bar, covarianceReg regC v1bar v1bar,
   covarianceReg regC v2bar v2bar)

/-- Buffers of `RunningCCALoss` (utils/torch/losses.py lines 200-217): running
covariance and mean accumulators together with the decay powers. -/
structure RunningCCAState (d1 d2 : ℕ) where
  sigma : Matrix (Fin d1) (Fin d2) ℚ
  sigma1 : Matrix (Fin d1) (Fin d1) ℚ
  sigma2 : Matrix (Fin d2) (Fin d2) ℚ
  mu1 : Fin d1 → ℚ
  mu2 : Fin d2 → ℚ
  betaMuPower : ℚ
  betaSigmaPower : ℚ

/-- Initial `RunningCCALoss` buffers: identity same-view covariances, zero
cross-covariance and means, decay powers 1. -/
def RunningCCAState.init (d1 d2 : ℕ) : RunningCCAState d1 d2 :=
  ⟨0, 1, 1, 0, 0, 1, 1⟩

/-- `RunningCCALoss._running_update` (lines 219-223):
`old * beta + (1 - beta) * new`. -/
def runningUpdate {α : Type} [AddCommMonoid α] [Module ℚ α]
    (beta : ℚ) (old new : α) : α :=
  beta • old + (1 - beta) • new

/-- `RunningCCALoss._compute_covariance_matrices` together with
`_compute_means` (lines 225-269): update the running means, bias-correct them,
center the batch by the bias-corrected running means, fold the batch
covariances into the running ones, and return the bias-corrected covariance
triple `(Σ12, Σ11, Σ22)` (no regularization here) plus the mutated state. -/
def runningCovarianceMatrices (betaMu betaSigma : ℚ) (st : RunningCCAState d1 d2)
    (view1 : Matrix (Fin nn) (Fin d1) ℚ) (view2 : Matrix (Fin nn) (Fin d2) ℚ) :
    (Matrix (Fin d1) (Fin d2) ℚ × Matrix (Fin d1) (Fin d1) ℚ
      × Matrix (Fin d2) (Fin d2) ℚ) × RunningCCAState d1 d2 :=
  let v1 := view1ᵀ
  let v2 := view2ᵀ
  -- _compute_means
  let mu1 := runningUpdate betaMu st.mu1 (obsMean v1)
  let mu2 := runningUpdate betaMu st.mu2 (obsMean v2)
  let betaMuPower := st.betaMuPower * betaMu
  let mu1c := (1 - betaMuPower)⁻¹ • mu1
  let mu2c := (1 - betaMuPower)⁻¹ • mu2
  -- center by the bias-corrected running means (not the batch means)
  let v1bar := centerCols v1 mu1c
  let v2bar := centerCols v2 mu2c
  let newSigma := covariance v1bar v2bar
  let newSigma1 := covariance v1bar v1bar
  let newSigma2 := covariance v2bar v2bar
  let sigma := runningUpdate betaSigma st.sigma newSigma
  let sigma1 := runningUpdate betaSigma st.sigma1 newSigma1
  let sigma2 := runningUpdate betaSigma st.sigma2 newSigma2
  let betaSigmaPower := st.betaSigmaPower * betaSigma
  (((1 - betaSigmaPower)⁻¹ • sigma, (1 - betaSigmaPower)⁻¹ • sigma1,
    (1 - betaSigmaPower)⁻¹ • sigma2),
   ⟨sigma, sigma1, sigma2, mu1, mu2, betaMuPower, betaSigmaPower⟩)

/-- The bias-corrected running mean after one `_compute_means` step for one
view (lines 262-268): the running mean update, the decay-power update, and the
division by `1 - decay_power`. -/
def runningMeanStep (betaMu : ℚ) (muOld : Fin d → ℚ) (pow : ℚ)
    (v : Matrix (Fin d) (Fin nn) ℚ) : Fin d → ℚ :=
  (1 - pow * betaMu)⁻¹ • runningUpdate betaMu muOld (obsMean v)

/-- Exact batch centering: the view transposed to features-by-observations and
centered by its own batch mean. -/
def batchCentered (view : Matrix (Fin nn) (Fin d) ℚ) : Matrix (Fin d) (Fin nn) ℚ :=
  centerCols viewᵀ (obsMean viewᵀ)

/-- C6 (amended): with `beta_mu = beta_sigma = 0` the running estimator's
bias-corrected mean equals the batch mean and its bias-corrected covariance
triple equals the exact statistics of the current batch alone — from any
prior state, hence at every step of any update sequence.  The exact-batch
`CCALoss` triple agrees on the cross-covariance Σ12 but adds the ridge term
`regC • I` to the same-view covariances Σ11, Σ22, which the running variant
does not. -/
theorem claim_C6_beta_zero_running_stats (st : RunningCCAState d1 d2)
    (pow : ℚ) (muOld : Fin d → ℚ) (v : Matrix (Fin d) (Fin nn0) ℚ) (regC : ℚ)
    (view1 : Matrix (Fin nn) (Fin d1) ℚ) (view2 : Matrix (Fin nn) (Fin d2) ℚ) :
    runningMeanStep 0 muOld pow v = obsMean v
    ∧ (runningCovarianceMatrices 0 0 st view1 view2).1
        = (covariance (batchCentered view1) (batchCentered view2),
           covariance (batchCentered view1) (batchCentered view1),
           covariance (batchCentered view2) (batchCentered view2))
    ∧ exactCovarianceMatrices regC view1 view2
        = (covariance (batchCentered view1) (batchCentered view2),
           covariance (batchCentered view1) (batchCentered view1)
             + regC • (1 : Matrix (Fin d1) (Fin d1) ℚ),
           covariance (batchCentered view2) (batchCentered view2)
             + regC • (1 : Matrix (Fin d2) (Fin d2) ℚ)) := by
  refine ⟨?_, ?_, rfl⟩
  · simp [runningMeanStep, runningUpdate]
  · simp [runningCovarianceMatrices, runningUpdate, batchCentered]

/-- The concrete one-feature batch `[[0], [2]]` of two observations. -/
def view1c : Matrix (Fin 2) (Fin 1) ℚ := Matrix.of ![![0], ![2]]

/-- Counterexample for C6 as stated: at the batch `[[0], [2]]` for both views,
the β=0 running covariance triple is not the `CCALoss` triple — the exact
branch adds the ridge `1e-3` to Σ11 (batch variance 2 versus 2.001). -/
theorem counterexample_C6_ridge_differs :
    (runningCovarianceMatrices 0 0 (RunningCCAState.init 1 1) view1c view1c).1.2.1 0 0
      ≠ (exactCovarianceMatrices (1/1000) view1c view1c).2.1 0 0 := by
  have hl : (runningCovarianceMatrices 0 0 (RunningCCAState.init 1 1)
      view1c view1c).1.2.1 0 0 = 2 := by
    simp [runningCovarianceMatrices, runningUpdate, RunningCCAState.init,
      covariance, centerCols, obsMean, view1c, Matrix.mul_apply, Fin.sum_univ_two,
      Matrix.transpose_apply, Matrix.vecHead, Matrix.vecTail, Fin.sum_univ_one]
    norm_num
  have hr : (exactCovarianceMatrices (1/1000) view1c view1c).2.1 0 0 = 2 + 1/1000 := by
    simp [exactCovarianceMatrices, covarianceReg, covariance, centerCols, obsMean,
      view1c, Matrix.mul_apply, Matrix.one_apply, Fin.sum_univ_two]
    norm_num
  rw [hl, hr]
  norm_num

/-- Diagonal of the Gram matrix `A.T @ A`.  In `CCALoss.forward`
(utils/torch/losses.py lines 151-153), `torch.trace(torch.sqrt(A.T @ A))`
applies the ELEMENTWISE square root, so the returned correlation is
`∑ j, Real.sqrt (gramDiag A j)` — the sum of the Euclidean norms of the
columns of `A`. -/
def gramDiag (A : Matrix (Fin m) (Fin k) ℚ) : Fin k → ℚ :=
  fun j => (Aᵀ * A) j j

/-- Modelled from the spec: `s1, s2` are the singular values of the 2-by-2
matrix `A` exactly when they are nonnegative and their squares are the two
eigenvalues of `AᵀA`, characterized by the elementary symmetric functions
(trace and determinant) of `AᵀA`. -/
def IsSingularValuePair (A : Matrix (Fin 2) (Fin 2) ℚ) (s1 s2 : ℝ) : Prop :=
  0 ≤ s1 ∧ 0 ≤ s2
    ∧ s1 ^ 2 + s2 ^ 2 = ((Matrix.trace (Aᵀ * A) : ℚ) : ℝ)
    ∧ (s1 * s2) ^ 2 = (((Aᵀ * A).det : ℚ) : ℝ)

/-- A concrete whitened cross-covariance matrix reachable at line 149. -/
def A0 : Matrix (Fin 2) (Fin 2) ℚ := Matrix.of ![![1/2, 1/2], ![0, 0]]

/-- C4: the correlation `CCALoss.forward` returns in the no-output-dimension
branch is `trace` of the ELEMENTWISE square root of `AᵀA`, that is
`∑ j, √(gramDiag A j)` — at `A0` it equals 1, while no pair of singular values
of `A0` sums to 1 (their sum is √(1/2)).  The code's own comments (lines 148
and 152) state the intent of summing the singular values, which the
elementwise `torch.sqrt` does not compute. -/
theorem claim_C4_elementwise_sqrt_not_singular_values :
    (∑ j, Real.sqrt ((gramDiag A0 j : ℚ) : ℝ)) = 1
    ∧ ¬ ∃ s1 s2 : ℝ, IsSingularValuePair A0 s1 s2
        ∧ s1 + s2 = ∑ j, Real.sqrt ((gramDiag A0 j : ℚ) : ℝ) := by
  have hM : A0ᵀ * A0 = Matrix.of ![![1/4, 1/4], ![1/4, 1/4]] := by
    ext j j'
    fin_cases j <;> fin_cases j' <;>
      simp [A0, Matrix.mul_apply, Fin.sum_univ_two] <;> norm_num
  have hcorr : (∑ j, Real.sqrt ((gramDiag A0 j : ℚ) : ℝ)) = 1 := by
    unfold gramDiag
    rw [Fin.sum_univ_two, hM]
    rw [show ((((Matrix.of ![![(1:ℚ)/4, 1/4], ![1/4, 1/4]]) 0 0 : ℚ) : ℝ))
      = (1/2 : ℝ) ^ 2 by norm_num [Matrix.of_apply]]
    rw [show ((((Matrix.of ![![(1:ℚ)/4, 1/4], ![1/4, 1/4]]) 1 1 : ℚ) : ℝ))
      = (1/2 : ℝ) ^ 2 by norm_num [Matrix.of_apply]]
    rw [Real.sqrt_sq (by norm_num)]
    norm_num
  refine ⟨hcorr, ?_⟩
  rintro ⟨s1, s2, ⟨-, -, h3, h4⟩, hsum⟩
  rw [hcorr] at hsum
  have htr : Matrix.trace (A0ᵀ * A0) = (1/2 : ℚ) := by
    rw [hM, Matrix.trace_fin_two]
    norm_num [Matrix.of_apply]
  have hdet : (A0ᵀ * A0).det = (0 : ℚ) := by
    rw [hM, Matrix.det_fin_two]
    norm_num [Matrix.of_apply]
  rw [htr] at h3
  rw [hdet] at h4
  push_cast at h3 h4
  have hmul : s1 * s2 = 0 := by
    exact pow_eq_zero_iff (two_ne_zero) |>.mp h4
  nlinarith [h3, hmul, hsum]

/-- Indices of eigenvalues strictly above the threshold:
`torch.gt(D, eps).nonzero()[:, 0]` (utils/torch/losses.py lines 134-143). -/
def largeEighIdxs (eps : ℚ) (D : List ℚ) : List ℕ :=
  (List.range D.length).filter (fun i => decide (eps < D.getD i 0))

/-- The surviving eigenvalues `D[large_eigh_idxs]` of the whitening branch. -/
def selectedEigenvalues (eps : ℚ) (D : List ℚ) : List ℚ :=
  (largeEighIdxs eps D).map (fun i => D.getD i 0)

/-- The surviving eigenpairs: `D[large_eigh_idxs]` with the matching
eigenvector columns `V[:, large_eigh_idxs]`. -/
def selectedEigenpairs (eps : ℚ) (D : List ℚ) (V : List (Fin m → ℚ)) :
    List (ℚ × (Fin m → ℚ)) :=
  (largeEighIdxs eps D).map (fun i => (D.getD i 0, V.getD i (fun _ => 0)))

/-- The fixed-output-dimension branch's eigenvalue treatment
(utils/torch/losses.py lines 161-166):
`torch.where(eigenvalues > eps, eigenvalues, eps)` — values at most `eps` are
clamped up to `eps` and retained, none is dropped. -/
def clampedEigenvalues (eps : ℚ) (evs : List ℚ) : List ℚ :=
  evs.map (fun x => if eps < x then x else eps)

/-- `torch.topk(k)`: the `k` largest entries, in descending order
(utils/torch/losses.py line 168). -/
def topkDesc (k : ℕ) (l : List ℚ) : List ℚ :=
  (l.mergeSort (fun a b => decide (b ≤ a))).take k

theorem largeEighIdxs_cons (eps a : ℚ) (t : List ℚ) :
    largeEighIdxs eps (a :: t)
      = (if eps < a then [0] else []) ++ (largeEighIdxs eps t).map Nat.succ := by
  unfold largeEighIdxs
  rw [List.length_cons, List.range_succ_eq_map, List.filter_cons]
  rw [List.filter_map]
  have hcomp : ((fun i => decide (eps < (a :: t).getD i 0)) ∘ Nat.succ)
      = fun i => decide (eps < t.getD i 0) := by
    funext i; simp [List.getD_cons_succ]
  rw [hcomp]
  by_cases h : eps < a <;> simp [h]

theorem selectedEigenvalues_eq_filter (eps : ℚ) (D : List ℚ) :
    selectedEigenvalues eps D = D.filter (fun x => decide (eps < x)) := by
  induction D with
  | nil => rfl
  | cons a t ih =>
    unfold selectedEigenvalues
    rw [largeEighIdxs_cons, List.map_append, List.map_map, List.filter_cons]
    have hcomp : ((fun i => (a :: t).getD i 0) ∘ Nat.succ) = fun i => t.getD i 0 := by
      funext i; simp [List.getD_cons_succ]
    rw [hcomp]
    have ht : List.map (fun i => t.getD i 0) (largeEighIdxs eps t)
        = t.filter (fun x => decide (eps < x)) := ih
    rw [ht]
    by_cases h : eps < a <;> simp [h]

theorem selectedEigenpairs_eq_filter (eps : ℚ) (D : List ℚ) :
    ∀ V : List (Fin m → ℚ), V.length = D.length →
      selectedEigenpairs eps D V = (D.zip V).filter (fun q => decide (eps < q.1)) := by
  induction D with
  | nil => intro V _; rfl
  | cons a t ih =>
    intro V hV
    match V, hV with
    | v :: vs, hV =>
      unfold selectedEigenpairs
      rw [largeEighIdxs_cons, List.map_append, List.map_map]
      have hcomp : ((fun i => ((a :: t).getD i 0, (v :: vs).getD i fun _ => 0)) ∘ Nat.succ)
          = fun i => (t.getD i 0, vs.getD i fun _ => 0) := by
        funext i; simp [List.getD_cons_succ]
      rw [hcomp]
      have ht : List.map (fun i => (t.getD i 0, vs.getD i fun _ => 0)) (largeEighIdxs eps t)
          = (t.zip vs).filter (fun q => decide (eps < q.1)) := by
        have := ih vs (by simpa using hV)
        simpa [selectedEigenpairs] using this
      rw [ht, List.zip_cons_cons, List.filter_cons]
      by_cases h : eps < a <;> simp [h]

theorem clampedEigenvalues_eq_map_max (eps : ℚ) (evs : List ℚ) :
    clampedEigenvalues eps evs = evs.map (fun x => max x eps) := by
  unfold clampedEigenvalues
  congr 1
  funext x
  rcases lt_or_le eps x with h | h
  · rw [if_pos h, max_eq_left h.le]
  · rw [if_neg (not_lt.mpr h), max_eq_right h]

/-- C5: the two branches of `CCALoss.forward` treat small eigenvalues
asymmetrically — the whitening step discards the eigenpairs of Σ11, Σ22 whose
eigenvalue is at most ε (a filter, which can shorten the list), while the
fixed-output-dimension branch clamps the eigenvalues of `AᵀA + λI` up to ε and
retains all of them (a pointwise max, preserving length) before the top-`d`
selection and the sum of square roots. -/
theorem claim_C5_discard_versus_clamp (eps : ℚ) (D evs : List ℚ)
    (V : List (Fin m → ℚ)) (hV : V.length = D.length) (d : ℕ) :
    selectedEigenvalues eps D = D.filter (fun x => decide (eps < x))
    ∧ selectedEigenpairs eps D V = (D.zip V).filter (fun q => decide (eps < q.1))
    ∧ clampedEigenvalues eps evs = evs.map (fun x => max x eps)
    ∧ (clampedEigenvalues eps evs).length = evs.length
    ∧ ((topkDesc d (clampedEigenvalues eps evs)).map
          (fun q => Real.sqrt ((q : ℚ) : ℝ))).sum
        = ((topkDesc d (evs.map (fun x => max x eps))).map
            (fun q => Real.sqrt ((q : ℚ) : ℝ))).sum := by
  refine ⟨selectedEigenvalues_eq_filter eps D,
    selectedEigenpairs_eq_filter eps D V hV,
    clampedEigenvalues_eq_map_max eps evs,
    by simp [clampedEigenvalues], ?_⟩
  rw [clampedEigenvalues_eq_map_max eps evs]

/-- Witness for C5 at a concrete input: ε = 0, eigenvalues `[-1, 1]` with two
eigenvector columns, fixed-dimension eigenvalues `[-2, 3]`, `d = 1`. -/
theorem claim_C5_witness :
    ([(fun _ => (0:ℚ) : Fin 1 → ℚ), fun _ => 0].length = [(-1 : ℚ), 1].length)
    ∧ (selectedEigenvalues 0 [(-1 : ℚ), 1]
        = [(-1 : ℚ), 1].filter (fun x => decide ((0:ℚ) < x))
    ∧ selectedEigenpairs 0 [(-1 : ℚ), 1] [(fun _ => (0:ℚ) : Fin 1 → ℚ), fun _ => 0]
        = ([(-1 : ℚ), 1].zip [(fun _ => (0:ℚ) : Fin 1 → ℚ), fun _ => 0]).filter
            (fun q => decide ((0:ℚ) < q.1))
    ∧ clampedEigenvalues 0 [(-2 : ℚ), 3] = [(-2 : ℚ), 3].map (fun x => max x 0)
    ∧ (clampedEigenvalues 0 [(-2 : ℚ), 3]).length = [(-2 : ℚ), 3].length
    ∧ ((topkDesc 1 (clampedEigenvalues 0 [(-2 : ℚ), 3])).map
          (fun q => Real.sqrt ((q : ℚ) : ℝ))).sum
        = ((topkDesc 1 ([(-2 : ℚ), 3].map (fun x => max x 0))).map
            (fun q => Real.sqrt ((q : ℚ) : ℝ))).sum) :=
  ⟨rfl, claim_C5_discard_versus_clamp 0 [(-1 : ℚ), 1] [(-2 : ℚ), 3]
    [(fun _ => (0:ℚ) : Fin 1 → ℚ), fun _ => 0] rfl 1⟩

/-- A document of the retrieval test split: its id and the ids of its true
relevant targets (the label set, possibly empty). -/
structure RetrievalDoc where
  id : ℕ
  labelIds : List ℕ
deriving DecidableEq

/-- `RetrievalEval._get_nearest_ids_from_faiss` (pipelines/retrieval_eval.py
lines 22-57).  The faiss index query is the external collaborator `nearest`,
returning the `k+1` nearest ids for a document; the code drops the first hit
(the query itself).  A document whose label list is empty is skipped with
`continue` before any query is issued; otherwise the pair
`(true_ids, pred_ids)` is yielded. -/
def getNearestIdsFromFaiss (docs : List RetrievalDoc)
    (nearest : RetrievalDoc → List ℕ) : List (List ℕ × List ℕ) :=
  docs.filterMap fun a =>
    if a.labelIds.length = 0 then none else some (a.labelIds, (nearest a).drop 1)

/-- The loop of `RetrievalEval._evaluate_ir_metrics` computing
`first_hit_ind` (pipelines/retrieval_eval.py lines 80-91): start at
`max_rank = len(pred_ids)` and lower to each correct prediction's index. -/
def firstHitLoop (trueIds : List ℕ) : ℕ → ℕ → List ℕ → ℕ
  | _, acc, [] => acc
  | i, acc, p :: rest =>
      firstHitLoop trueIds (i + 1) (if p ∈ trueIds ∧ i < acc then i else acc) rest

def firstHitInd (trueIds predIds : List ℕ) : ℕ :=
  firstHitLoop trueIds 0 predIds.length predIds

/-- One query's reciprocal-rank contribution (line 98):
`1 / (first_hit_ind if first_hit_ind > 0 else 1)`. -/
def reciprocalRankTerm (trueIds predIds : List ℕ) : ℚ :=
  1 / (if 0 < firstHitInd trueIds predIds then (firstHitInd trueIds predIds : ℚ) else 1)

/-- Indices of the correct predictions of one query, in ascending order. -/
def hitIndices (trueIds predIds : List ℕ) : List ℕ :=
  (predIds.enum.filter (fun q => decide (q.2 ∈ trueIds))).map Prod.fst

/-- Each correct prediction's percentile rank `i / max_rank` (line 93). -/
def percentileRanks (trueIds predIds : List ℕ) : List ℚ :=
  (hitIndices trueIds predIds).map (fun i => (i : ℚ) / predIds.length)

/-- Number of correct predictions with index below the threshold (line 95). -/
def queryHits (t : ℕ) (trueIds predIds : List ℕ) : ℕ :=
  ((hitIndices trueIds predIds).filter (fun i => decide (i < t))).length

/-- `mean_reciprocal_rank` (line 107): the accumulated reciprocal ranks over
the processed queries, divided by their count. -/
def meanReciprocalRank (pairs : List (List ℕ × List ℕ)) : ℚ :=
  (pairs.map (fun p => reciprocalRankTerm p.1 p.2)).sum / pairs.length

/-- `mean_percentile_rank` (line 108): mean over all individual hit
percentiles pooled across queries. -/
def meanPercentileRank (pairs : List (List ℕ × List ℕ)) : ℚ :=
  ((pairs.map (fun p => percentileRanks p.1 p.2)).flatten).sum
    / ((pairs.map (fun p => percentileRanks p.1 p.2)).flatten).length

/-- `hit_rate_at_t` (lines 101-114): per query, the fraction of its true ids
hit within the top-`t` predictions, averaged over the processed queries. -/
def hitRateAt (t : ℕ) (pairs : List (List ℕ × List ℕ)) : ℚ :=
  (pairs.map (fun p => (queryHits t p.1 p.2 : ℚ) / p.1.length)).sum / pairs.length

/-- C7: every document with an empty label set is excluded entirely from the
retrieval evaluation — each yielded query has a non-empty (positive-length)
true-id list, the yielded stream equals the one computed from the
empty-label-filtered corpus, the result does not depend on what the index
would answer for the skipped documents (they are never queried), and all the
aggregates coincide with the aggregates over the filtered corpus. -/
theorem getNearest_cons_skip (a : RetrievalDoc) (t : List RetrievalDoc)
    (n : RetrievalDoc → List ℕ) (h : a.labelIds.length = 0) :
    getNearestIdsFromFaiss (a :: t) n = getNearestIdsFromFaiss t n := by
  have h' : a.labelIds = [] := List.length_eq_zero.mp h
  simp [getNearestIdsFromFaiss, List.filterMap_cons, h']

theorem getNearest_cons_keep (a : RetrievalDoc) (t : List RetrievalDoc)
    (n : RetrievalDoc → List ℕ) (h : ¬ a.labelIds.length = 0) :
    getNearestIdsFromFaiss (a :: t) n
      = (a.labelIds, (n a).drop 1) :: getNearestIdsFromFaiss t n := by
  have h' : ¬ a.labelIds = [] := fun he => h (by simp [he])
  simp [getNearestIdsFromFaiss, List.filterMap_cons, h']

theorem getNearest_mem_pos (docs : List RetrievalDoc) (n : RetrievalDoc → List ℕ) :
    ∀ q ∈ getNearestIdsFromFaiss docs n, 0 < q.1.length := by
  intro q hq
  simp only [getNearestIdsFromFaiss, List.mem_filterMap] at hq
  obtain ⟨a, -, ha⟩ := hq
  split at ha
  · cases ha
  · next h =>
    cases ha
    exact Nat.pos_of_ne_zero h

theorem getNearest_filter (docs : List RetrievalDoc) (n : RetrievalDoc → List ℕ) :
    getNearestIdsFromFaiss docs n
      = getNearestIdsFromFaiss
          (docs.filter (fun a => decide (a.labelIds.length ≠ 0))) n := by
  induction docs with
  | nil => rfl
  | cons a t ih =>
    by_cases h : a.labelIds.length = 0
    · rw [getNearest_cons_skip a t n h, ih, List.filter_cons]
      simp [h]
    · have hd : (decide (a.labelIds.length ≠ 0)) = true := by simp [h]
      rw [getNearest_cons_keep a t n h, List.filter_cons, hd]
      simp only [if_true]
      rw [getNearest_cons_keep _ _ n h, ih]

theorem getNearest_congr (docs : List RetrievalDoc) (n n2 : RetrievalDoc → List ℕ)
    (hagree : ∀ a : RetrievalDoc, a.labelIds.length ≠ 0 → n a = n2 a) :
    getNearestIdsFromFaiss docs n = getNearestIdsFromFaiss docs n2 := by
  induction docs with
  | nil => rfl
  | cons a t ih =>
    by_cases h : a.labelIds.length = 0
    · rw [getNearest_cons_skip a t n h, getNearest_cons_skip a t n2 h, ih]
    · rw [getNearest_cons_keep a t n h, getNearest_cons_keep a t n2 h, ih, hagree a h]

/-- C7: every document with an empty label set is excluded entirely from the
retrieval evaluation — each yielded query has a non-empty (positive-length)
true-id list, the yielded stream equals the one computed from the
empty-label-filtered corpus, the result does not depend on what the index
would answer for the skipped documents (they are never queried), and all the
aggregates coincide with the aggregates over the filtered corpus. -/
theorem claim_C7_empty_label_docs_excluded (docs : List RetrievalDoc)
    (nearest nearest2 : RetrievalDoc → List ℕ) (t : ℕ) :
    (∀ q ∈ getNearestIdsFromFaiss docs nearest, 0 < q.1.length)
    ∧ getNearestIdsFromFaiss docs nearest
        = getNearestIdsFromFaiss
            (docs.filter (fun a => decide (a.labelIds.length ≠ 0))) nearest
    ∧ ((∀ a : RetrievalDoc, a.labelIds.length ≠ 0 → nearest a = nearest2 a) →
        getNearestIdsFromFaiss docs nearest = getNearestIdsFromFaiss docs nearest2)
    ∧ meanReciprocalRank (getNearestIdsFromFaiss docs nearest)
        = meanReciprocalRank (getNearestIdsFromFaiss
            (docs.filter (fun a => decide (a.labelIds.length ≠ 0))) nearest)
    ∧ meanPercentileRank (getNearestIdsFromFaiss docs nearest)
        = meanPercentileRank (getNearestIdsFromFaiss
            (docs.filter (fun a => decide (a.labelIds.length ≠ 0))) nearest)
    ∧ hitRateAt t (getNearestIdsFromFaiss docs nearest)
        = hitRateAt t (getNearestIdsFromFaiss
            (docs.filter (fun a => decide (a.labelIds.length ≠ 0))) nearest) :=
  ⟨getNearest_mem_pos docs nearest, getNearest_filter docs nearest,
    getNearest_congr docs nearest nearest2,
    by rw [← getNearest_filter], by rw [← getNearest_filter],
    by rw [← getNearest_filter]⟩

theorem firstHitLoop_eq (trueIds : List ℕ) :
    ∀ (rest : List ℕ) (i acc : ℕ), acc ≤ i + rest.length →
      firstHitLoop trueIds i acc rest
        = min acc (i + rest.findIdx (fun x => decide (x ∈ trueIds))) := by
  intro rest
  induction rest with
  | nil =>
    intro i acc h
    simp only [firstHitLoop, List.findIdx_nil]
    simp at h
    omega
  | cons p rest ih =>
    intro i acc h
    simp only [firstHitLoop]
    by_cases hp : p ∈ trueIds
    · have hacc : (if p ∈ trueIds ∧ i < acc then i else acc) = min acc i := by
        by_cases hlt : i < acc <;> simp [hp, hlt] <;> omega
      rw [hacc, ih (i + 1) (min acc i) (by simp only [List.length_cons] at h ⊢; omega)]
      rw [List.findIdx_cons]
      simp [hp]
      omega
    · have hacc : (if p ∈ trueIds ∧ i < acc then i else acc) = acc := by simp [hp]
      rw [hacc, ih (i + 1) acc (by simp only [List.length_cons] at h ⊢; omega)]
      rw [List.findIdx_cons]
      simp [hp]
      omega

theorem firstHitInd_eq_findIdx (trueIds predIds : List ℕ) :
    firstHitInd trueIds predIds = predIds.findIdx (fun x => decide (x ∈ trueIds)) := by
  unfold firstHitInd
  rw [firstHitLoop_eq trueIds predIds 0 predIds.length (by omega)]
  have := @List.findIdx_le_length ℕ (fun x => decide (x ∈ trueIds)) predIds
  omega

/-- C8: the per-query reciprocal-rank contribution equals `1/i` for the
smallest index `i` of a prediction contained in the label set when `i > 0`,
equals 1 when the first hit is at index 0, and equals `1/max_rank` when no
prediction is in the label set (the missing first hit keeps the initial value
`max_rank`); `mean_reciprocal_rank` is the sum of the contributions divided by
the number of processed queries. -/
theorem claim_C8_reciprocal_rank (trueIds predIds : List ℕ)
    (pairs : List (List ℕ × List ℕ)) (h : predIds ≠ []) :
    firstHitInd trueIds predIds = predIds.findIdx (fun x => decide (x ∈ trueIds))
    ∧ (predIds.findIdx (fun x => decide (x ∈ trueIds)) = 0 →
        reciprocalRankTerm trueIds predIds = 1)
    ∧ (0 < predIds.findIdx (fun x => decide (x ∈ trueIds)) →
        reciprocalRankTerm trueIds predIds
          = 1 / (predIds.findIdx (fun x => decide (x ∈ trueIds)) : ℚ))
    ∧ ((∀ p ∈ predIds, p ∉ trueIds) →
        reciprocalRankTerm trueIds predIds = 1 / (predIds.length : ℚ))
    ∧ meanReciprocalRank pairs
        = (pairs.map (fun p => reciprocalRankTerm p.1 p.2)).sum / pairs.length := by
  have hfi := firstHitInd_eq_findIdx trueIds predIds
  have hzero : predIds.findIdx (fun x => decide (x ∈ trueIds)) = 0 →
      reciprocalRankTerm trueIds predIds = 1 := by
    intro h0
    unfold reciprocalRankTerm
    rw [hfi, h0]
    norm_num
  have hpos : 0 < predIds.findIdx (fun x => decide (x ∈ trueIds)) →
      reciprocalRankTerm trueIds predIds
        = 1 / (predIds.findIdx (fun x => decide (x ∈ trueIds)) : ℚ) := by
    intro h0
    unfold reciprocalRankTerm
    rw [hfi, if_pos h0]
  refine ⟨hfi, hzero, hpos, ?_, rfl⟩
  intro hnone
  have hlen : predIds.findIdx (fun x => decide (x ∈ trueIds)) = predIds.length := by
    apply List.findIdx_eq_length.mpr
    intro a ha
    simp [hnone a ha]
  have h0 : 0 < predIds.findIdx (fun x => decide (x ∈ trueIds)) := by
    rw [hlen]
    exact List.length_pos.mpr h
  rw [hpos h0, hlen]

/-- Witness for C8 at a concrete input: label set `{5}`, predictions `[3, 5]`
(first hit at index 1), one processed query. -/
theorem claim_C8_witness :
    ([3, 5] : List ℕ) ≠ []
    ∧ (firstHitInd [5] [3, 5] = [3, 5].findIdx (fun x => decide (x ∈ [5]))
    ∧ ([3, 5].findIdx (fun x => decide (x ∈ ([5] : List ℕ))) = 0 →
        reciprocalRankTerm [5] [3, 5] = 1)
    ∧ (0 < [3, 5].findIdx (fun x => decide (x ∈ ([5] : List ℕ))) →
        reciprocalRankTerm [5] [3, 5]
          = 1 / (([3, 5].findIdx (fun x => decide (x ∈ ([5] : List ℕ)))) : ℚ))
    ∧ ((∀ p ∈ ([3, 5] : List ℕ), p ∉ ([5] : List ℕ)) →
        reciprocalRankTerm [5] [3, 5] = 1 / (([3, 5] : List ℕ).length : ℚ))
    ∧ meanReciprocalRank [([5], [3, 5])]
        = ([([5], [3, 5])].map
            (fun p : List ℕ × List ℕ => reciprocalRankTerm p.1 p.2)).sum
          / ([([5], [3, 5])] : List (List ℕ × List ℕ)).length) :=
  ⟨by decide, claim_C8_reciprocal_rank [5] [3, 5] [([5], [3, 5])] (by decide)⟩

/-- The contextual mask of `StaticContextualLoss.forward` in
models/transformer/student.py (lines 92-97): rows with
`length <= contextual_max_length`, or all rows when no threshold is set. -/
def studentMask (contextualMaxLength : Option ℕ) (lengths : List ℕ) : List Bool :=
  match contextualMaxLength with
  | some t => lengths.map (fun l => decide (l ≤ t))
  | none => lengths.map (fun _ => true)

/-- Normalization and weighting of the contextual term in
models/transformer/student.py (lines 99-121): divide by `mask.sum()` when it
is positive (otherwise leave the term un-normalized), then multiply by the
optional scalar `lam`.  `raw` is the value returned by the configured inner
contextual loss. -/
def studentContextualTerm (lam : Option ℚ) (mask : List Bool) (raw : ℚ) : ℚ :=
  let weightSum := (mask.filter id).length
  let c := if 0 < weightSum then raw / weightSum else raw
  match lam with
  | some l => c * l
  | none => c

/-- `StaticContextualLoss.forward` of models/transformer/student.py
(lines 87-133), with the configured inner losses as oracles: the contextual
loss receives the mask and its result is normalized and weighted; the static
term is added when configured. -/
def studentForward (contextualMaxLength : Option ℕ) (lam : Option ℚ)
    (contextualLoss : Option (List Bool → ℚ)) (staticLoss : Option ℚ)
    (lengths : List ℕ) : ℚ :=
  (match contextualLoss with
   | some f => studentContextualTerm lam (studentMask contextualMaxLength lengths)
       (f (studentMask contextualMaxLength lengths))
   | none => 0)
  + staticLoss.getD 0

/-- The contextual mask of `StaticContextualLoss.forward` in
utils/torch/losses.py (lines 44-49): all ones when `len_key` is None,
otherwise the STRICT comparison `length < contextual_max_length`, as a 0/1
column multiplied into the tensors. -/
def lossesMask (lengths : Option (List ℕ)) (contextualMaxLength : ℕ)
    (nRows : ℕ) : List ℚ :=
  match lengths with
  | none => List.replicate nRows 1
  | some ls => ls.map (fun l => if l < contextualMaxLength then (1 : ℚ) else 0)

/-- `torch.nn.functional.mse_loss` with the default mean reduction: mean of
the squared differences over all `n * d` entries. -/
def mseLoss (x y : List (Fin d → ℚ)) : ℚ :=
  ((x.zip y).map (fun q => ∑ j, (q.1 j - q.2 j) ^ 2)).sum / (x.length * d)

/-- The contextual branch of `StaticContextualLoss.forward` in
utils/torch/losses.py (lines 44-60): multiply inputs and targets by the 0/1
mask column, take the mean-reduced MSE of the masked tensors, then multiply
by the optional scalar `lam`.  No normalization by the mask count happens. -/
def lossesContextualTerm (contextualMaxLength : ℕ) (lam : Option ℚ)
    (inputs targets : List (Fin d → ℚ)) (lengths : Option (List ℕ)) : ℚ :=
  let mask := lossesMask lengths contextualMaxLength targets.length
  let mi := (inputs.zip mask).map (fun q j => q.1 j * q.2)
  let mt := (targets.zip mask).map (fun q j => q.1 j * q.2)
  let c := mseLoss mi mt
  match lam with
  | some l => c * l
  | none => c

/-- Modelled from the spec: the claim's contextual term — rows masked by the
predicate `length ≤ threshold` (all rows unmasked when the threshold is
absent), the per-row squared error summed over unmasked rows, normalized by
the number of unmasked rows (left un-normalized when that number is zero),
and the optional scalar weight applied after normalization. -/
def specContextualTerm (thres : Option ℕ) (lam : Option ℚ)
    (inputs targets : List (Fin d → ℚ)) (lengths : List ℕ) : ℚ :=
  let mask := lengths.map (fun l =>
    match thres with | some t => decide (l ≤ t) | none => true)
  let cnt := (mask.filter id).length
  let rawSum := (((inputs.zip targets).zip mask).map
      (fun q => if q.2 then ∑ j, (q.1.1 j - q.1.2 j) ^ 2 else 0)).sum
  let c := if 0 < cnt then rawSum / cnt else rawSum
  match lam with
  | some l => c * l
  | none => c

theorem lossesMaskedSq_sum (d : ℕ) :
    ∀ (inputs targets : List (Fin d → ℚ)) (mask : List ℚ),
      inputs.length = targets.length → mask.length = inputs.length →
      ((((inputs.zip mask).map (fun q j => q.1 j * q.2)).zip
          ((targets.zip mask).map (fun q j => q.1 j * q.2))).map
            (fun q => ∑ j, (q.1 j - q.2 j) ^ 2)).sum
        = (((inputs.zip targets).zip mask).map
            (fun q => q.2 ^ 2 * ∑ j, (q.1.1 j - q.1.2 j) ^ 2)).sum := by
  intro inputs
  induction inputs with
  | nil => intro targets mask _ _; simp
  | cons x xs ih =>
    intro targets mask hin hmask
    match targets, mask, hin, hmask with
    | y :: ys, m :: ms, hin, hmask =>
      simp only [List.zip_cons_cons, List.map_cons, List.sum_cons]
      rw [ih ys ms (by simpa using hin) (by simpa using hmask)]
      congr 1
      rw [Finset.mul_sum]
      apply Finset.sum_congr rfl
      intro j _
      ring

/-- C9 (amended): the student.py `StaticContextualLoss` masks rows by
`length ≤ threshold` (all rows unmasked when the threshold is absent),
normalizes the contextual term by the number of unmasked rows, leaves the
term un-normalized when the mask sums to zero, and applies the optional
scalar weight after normalization.  The losses.py implementation of the same
class instead masks by the strict predicate `length < threshold` (all rows
only when `len_key` is None) and takes the plain mean-reduced MSE of the
masked tensors — dividing by the total entry count `n * d` whatever the mask
— before applying the scalar weight. -/
theorem claim_C9_contextual_masking (t : ℕ) (lengths lens : List ℕ)
    (lam : Option ℚ) (mask : List Bool) (raw : ℚ) (maxLen : ℕ)
    (inputs targets : List (Fin d → ℚ)) :
    studentMask (some t) lengths = lengths.map (fun l => decide (l ≤ t))
    ∧ studentMask none lengths = List.replicate lengths.length true
    ∧ studentContextualTerm lam mask raw
        = (if 0 < (mask.filter id).length
            then raw / ((mask.filter id).length : ℚ) else raw) * lam.getD 1
    ∧ ((mask.filter id).length = 0 → studentContextualTerm lam mask raw = raw * lam.getD 1)
    ∧ ((studentMask (some t) lengths).filter id).length
        = (lengths.filter (fun l => decide (l ≤ t))).length
    ∧ studentForward (some t) lam (some (fun _ => raw)) none lengths
        = studentContextualTerm lam (lengths.map (fun l => decide (l ≤ t))) raw
    ∧ (inputs.length = targets.length → lens.length = targets.length →
        lossesContextualTerm maxLen lam inputs targets (some lens)
          = ((((inputs.zip targets).zip
                (lens.map (fun l => if l < maxLen then (1 : ℚ) else 0))).map
                  (fun q => q.2 ^ 2 * ∑ j, (q.1.1 j - q.1.2 j) ^ 2)).sum
              / (inputs.length * d)) * lam.getD 1) := by
  refine ⟨rfl, ?_, ?_, ?_, ?_, ?_, ?_⟩
  · simp [studentMask, List.map_const']
  · unfold studentContextualTerm
    cases lam with
    | none => simp
    | some l => simp
  · intro h0
    unfold studentContextualTerm
    rw [h0]
    cases lam with
    | none => simp
    | some l => simp
  · unfold studentMask
    rw [List.filter_map]
    simp [Function.comp]
  · simp [studentForward, studentMask]
  · intro hin hlen
    simp only [lossesContextualTerm, lossesMask, mseLoss]
    have hmasklen : (lens.map (fun l => if l < maxLen then (1 : ℚ) else 0)).length
        = inputs.length := by simp [hlen, hin]
    have hmi : ((inputs.zip (lens.map (fun l =>
        if l < maxLen then (1 : ℚ) else 0))).map (fun q j => q.1 j * q.2)).length
        = inputs.length := by
      simp [List.length_zip, hmasklen]
    rw [lossesMaskedSq_sum d inputs targets _ hin hmasklen]
    rw [hmi]
    cases lam with
    | none => simp
    | some l => simp

/-- Counterexample for C9 as stated: at one row with `length = 5` and
threshold 5, the losses.py implementation masks the row out (strict `<`) and
returns 0, while the claimed `length ≤ threshold` masking with normalization
by the unmasked-row count gives 1. -/
theorem counterexample_C9_losses_strict_mask :
    lossesContextualTerm 5 none [(fun _ => (1 : ℚ) : Fin 1 → ℚ)]
        [(fun _ => (0 : ℚ) : Fin 1 → ℚ)] (some [5])
      ≠ specContextualTerm (some 5) none [(fun _ => (1 : ℚ) : Fin 1 → ℚ)]
          [(fun _ => (0 : ℚ) : Fin 1 → ℚ)] [5] := by
  have hl : lossesContextualTerm 5 none [(fun _ => (1 : ℚ) : Fin 1 → ℚ)]
      [(fun _ => (0 : ℚ) : Fin 1 → ℚ)] (some [5]) = 0 := by
    simp [lossesContextualTerm, lossesMask, mseLoss]
  have hr : specContextualTerm (some 5) none [(fun _ => (1 : ℚ) : Fin 1 → ℚ)]
      [(fun _ => (0 : ℚ) : Fin 1 → ℚ)] [5] = 1 := by
    simp [specContextualTerm]
  rw [hl, hr]
  norm_num

theorem flatten_views_length_eq (others : List (CCAState d1 d2))
    (ho : ∀ m ∈ others, m.views1.length = m.views2.length) :
    ((others.map CCAState.views1).flatten).length
      = ((others.map CCAState.views2).flatten).length := by
  induction others with
  | nil => rfl
  | cons m ms ih =>
    simp only [List.map_cons, List.flatten_cons, List.length_append]
    rw [ho m (by simp), ih (fun q hq => ho q (by simp [hq]))]

theorem flatten_pairs_length_eq (pairs : List (List (Fin d1 → ℚ) × List (Fin d2 → ℚ)))
    (hal : ∀ p ∈ pairs, p.1.length = p.2.length) :
    ((pairs.map Prod.fst).flatten).length = ((pairs.map Prod.snd).flatten).length := by
  induction pairs with
  | nil => rfl
  | cons p ps ih =>
    simp only [List.map_cons, List.flatten_cons, List.length_append]
    rw [hal p (by simp), ih (fun q hq => hal q (by simp [hq]))]

/-- C10: `WindowedCCAMetric` keeps its two view buffers row-aligned — one
`update` with equal-row-count views preserves equal buffer lengths (both
buffers are truncated together, driven by `views1`), `merge_state` over
aligned metrics preserves alignment, and any sequence of aligned updates from
the fresh state leaves aligned buffers, so `compute()` always sees two views
of the same sample count. -/
theorem claim_C10_row_alignment (w : ℕ) (st : CCAState d1 d2)
    (b1 : List (Fin d1 → ℚ)) (b2 : List (Fin d2 → ℚ))
    (others : List (CCAState d1 d2))
    (pairs : List (List (Fin d1 → ℚ) × List (Fin d2 → ℚ)))
    (h : st.views1.length = st.views2.length) (hb : b1.length = b2.length)
    (ho : ∀ m ∈ others, m.views1.length = m.views2.length)
    (hal : ∀ p ∈ pairs, p.1.length = p.2.length) :
    ((ccaUpdate w st b1 b2).views1.length = (ccaUpdate w st b1 b2).views2.length)
    ∧ ((ccaMergeState st others).views1.length
        = (ccaMergeState st others).views2.length)
    ∧ ((List.foldl (fun s p => ccaUpdate w s p.1 p.2) (⟨[], []⟩ : CCAState d1 d2)
          pairs).views1.length
        = (List.foldl (fun s p => ccaUpdate w s p.1 p.2) (⟨[], []⟩ : CCAState d1 d2)
            pairs).views2.length) := by
  refine ⟨?_, ?_, ?_⟩
  · rw [ccaUpdate_eq w st b1 b2 h hb]
    exact lastWindow_length_eq w (by simp [List.length_append, h, hb])
  · simp only [ccaMergeState, List.length_append, h,
      flatten_views_length_eq others ho]
  · have hfold := ccaFold_from w pairs hal [] [] rfl
    have hinit : (⟨lastWindow w [], lastWindow w []⟩ : CCAState d1 d2)
        = ⟨[], []⟩ := by simp [lastWindow_nil]
    rw [hinit] at hfold
    rw [hfold]
    exact lastWindow_length_eq w
      (by simp [flatten_pairs_length_eq pairs hal])

/-- Witness for C10 at a concrete input: window size 1, aligned one-row
state, batch, merge partner and update sequence. -/
theorem claim_C10_witness :
    ((⟨[fun _ => 0], [fun _ => 0]⟩ : CCAState 1 1).views1.length
        = (⟨[fun _ => 0], [fun _ => 0]⟩ : CCAState 1 1).views2.length)
    ∧ ([(fun _ => (0:ℚ) : Fin 1 → ℚ)].length = [(fun _ => (0:ℚ) : Fin 1 → ℚ)].length)
    ∧ (∀ m ∈ [(⟨[fun _ => 0], [fun _ => 0]⟩ : CCAState 1 1)],
        m.views1.length = m.views2.length)
    ∧ (∀ p ∈ [onePair], p.1.length = p.2.length)
    ∧ (((ccaUpdate 1 (⟨[fun _ => 0], [fun _ => 0]⟩ : CCAState 1 1)
          [fun _ => 0] [fun _ => 0]).views1.length
        = (ccaUpdate 1 (⟨[fun _ => 0], [fun _ => 0]⟩ : CCAState 1 1)
            [fun _ => 0] [fun _ => 0]).views2.length)
    ∧ ((ccaMergeState (⟨[fun _ => 0], [fun _ => 0]⟩ : CCAState 1 1)
          [⟨[fun _ => 0], [fun _ => 0]⟩]).views1.length
        = (ccaMergeState (⟨[fun _ => 0], [fun _ => 0]⟩ : CCAState 1 1)
            [⟨[fun _ => 0], [fun _ => 0]⟩]).views2.length)
    ∧ ((List.foldl (fun s p => ccaUpdate 1 s p.1 p.2) (⟨[], []⟩ : CCAState 1 1)
          [onePair]).views1.length
        = (List.foldl (fun s p => ccaUpdate 1 s p.1 p.2) (⟨[], []⟩ : CCAState 1 1)
            [onePair]).views2.length)) :=
  ⟨rfl, rfl, by decide, by decide,
    claim_C10_row_alignment 1 (⟨[fun _ => 0], [fun _ => 0]⟩ : CCAState 1 1)
      [fun _ => 0] [fun _ => 0] [⟨[fun _ => 0], [fun _ => 0]⟩] [onePair]
      rfl rfl (by decide) (by decide)⟩

end ThesisRepo
